import Mathlib

/-!
# vopher: archive readers, fetcher and update loop

A shallow embedding of the Go sources `archive_tar.go`, `archive_vimball.go`,
`http.go` and `vopher.go`.

Conventions of the embedding

* Go strings and byte slices are Lean strings.
* A Go `error` is a `GoError`; `nil` is `none`.
* A Go slice result that may be `nil` is an `Option (List _)`; `none` is `nil`.
* The outside world (the tar container reader, the line scanner, the
  filesystem, the HTTP transport) is data given to the functions: what the
  library calls return is fixed by the input value, and the functions of the
  repository are translated statement by statement on top of it.
* File paths follow the Unix rules of `path` and `path/filepath`
  (separator `/`, no volume names).
-/

namespace Vopher

/-! ## Errors -/

/-- The errors of `strconv.Atoi`. -/
inductive AtoiError where
  | notANumber
  | outOfRange
  deriving DecidableEq, Repr

/-- Go `error` values produced or passed on by the embedded functions. -/
inductive GoError where
  /-- an error that comes from a library or the environment, with its text -/
  | external (msg : String)
  /-- `fmt.Errorf("entry with absolute filename %q", header.Name)` -/
  | absoluteFilename (name : String)
  /-- `fmt.Errorf("error vimball: strange preamble")` -/
  | strangePreamble
  /-- `fmt.Errorf("error vimball: while scanning line-number for %q: %v", name, scanner.Err())` -/
  | scanLineNumber (name : String) (cause : Option String)
  /-- `fmt.Errorf("error vimball: while parsing line-number for %q: %v", name, err)` -/
  | parseLineNumber (name : String) (cause : AtoiError)
  /-- `fmt.Errorf("error vimball: got negative line-number for %q: %v", name, nlines)` -/
  | negativeLineNumber (name : String) (nlines : Int)
  /-- `fmt.Errorf("%d for %q", resp.StatusCode, url)` -/
  | badStatus (code : Int) (url : String)
  /-- an error built by `fmt.Errorf` from `%s` verbs only, with its full text -/
  | message (text : String)
  deriving DecidableEq, Repr

deriving instance DecidableEq for Except

/-- The pair `([]string, error)` returned by the archive readers. -/
abbrev Result := Option (List String) × Option GoError

/-! ## Strings and paths (Go standard library) -/

/-- Go `strings.HasPrefix`. -/
def HasPrefix (s pre : String) : Bool :=
  pre.data.isPrefixOf s.data

/-- Go `strings.HasSuffix`. -/
def HasSuffix (s suf : String) : Bool :=
  suf.data.isSuffixOf s.data

/-- The pieces of a path between its `/` separators (empty pieces included). -/
def splitSlash : List Char → List (List Char)
  | [] => [[]]
  | c :: cs =>
    if c = '/' then [] :: splitSlash cs
    else
      match splitSlash cs with
      | [] => [[c]]
      | x :: xs => (c :: x) :: xs

/-- One step of `Clean` on the stack of kept components (top first):
empty and `.` components are dropped, `..` removes the last kept name, or is
kept itself at the start of a path that is not rooted. -/
def cleanStep (rooted : Bool) (out : List (List Char)) (comp : List Char) :
    List (List Char) :=
  if comp = [] ∨ comp = ['.'] then out
  else if comp = ['.', '.'] then
    match out with
    | [] => if rooted then [] else [comp]
    | top :: rest =>
      if top = ['.', '.'] then (if rooted then out else comp :: out) else rest
  else comp :: out

/-- Join components with `/`. -/
def joinSlash : List (List Char) → List Char
  | [] => []
  | [x] => x
  | x :: y :: rest => x ++ '/' :: joinSlash (y :: rest)

/-- Go `path.Clean` / `filepath.Clean` on Unix. -/
def Clean (path : String) : String :=
  if path.data = [] then "."
  else
    let rooted := path.data.head? = some '/'
    let out := (splitSlash path.data).foldl (cleanStep rooted) []
    let body := joinSlash out.reverse
    let s := if rooted then '/' :: body else body
    if s = [] then "." else ⟨s⟩

/-- Go `strings.Join(elem, "/")` on a list of path elements. -/
def joinElems (elem : List String) : String :=
  ⟨joinSlash (elem.map String.data)⟩

/-- Go `path.Join` / `filepath.Join`: the elements from the first non-empty
one on, joined with `/` and cleaned; the empty string if all are empty. -/
def Join : List String → String
  | [] => ""
  | e :: rest => if e ≠ "" then Clean (joinElems (e :: rest)) else Join rest

/-- The directory part kept by `filepath.Dir`: everything up to and including
the last `/` (argument and result reversed). -/
def dropLastElemRev : List Char → List Char
  | [] => []
  | c :: cs => if c = '/' then c :: cs else dropLastElemRev cs

/-- Go `filepath.Dir` on Unix. -/
def Dir (path : String) : String :=
  Clean ⟨(dropLastElemRev path.data.reverse).reverse⟩

/-- The scan of `path.Ext` from the end of the path: `acc` is the text already
passed; stops at the first `.` (the extension starts there) or `/` (none). -/
def extRev : List Char → List Char → List Char
  | [], _ => []
  | c :: cs, acc =>
    if c = '/' then []
    else if c = '.' then '.' :: acc
    else extRev cs (c :: acc)

/-- Go `path.Ext`: the suffix beginning at the final dot of the final
slash-separated element of the path; empty if there is no dot. -/
def Ext (path : String) : String :=
  ⟨extRev path.data.reverse []⟩

/-! ## The filesystem -/

/-- The filesystem as the extraction code sees it: the directories and files
made so far, and whether `os.MkdirAll` and `os.Create` fail on a path.
Writes to a created file succeed. -/
structure FS where
  /-- the directories passed to a successful `os.MkdirAll`, oldest first -/
  dirs : List String
  /-- the files created, newest first, with their contents -/
  files : List (String × String)
  /-- the error of `os.MkdirAll path`, if it fails -/
  mkdirAllErr : String → Option String
  /-- the error of `os.Create path`, if it fails -/
  createErr : String → Option String

/-- A filesystem with nothing extracted yet on which no call fails. -/
def FS.empty : FS :=
  { dirs := [], files := [], mkdirAllErr := fun _ => none, createErr := fun _ => none }

/-- Go `os.MkdirAll(path, 0777)`. -/
def FS.MkdirAll (fs : FS) (path : String) : Option GoError × FS :=
  match fs.mkdirAllErr path with
  | some e => (some (.external e), fs)
  | none => (none, { fs with dirs := fs.dirs ++ [path] })

/-- Go `os.Create(name)`: the file exists afterwards and is empty. -/
def FS.Create (fs : FS) (name : String) : Option GoError × FS :=
  match fs.createErr name with
  | some e => (some (.external e), fs)
  | none => (none, { fs with files := (name, "") :: fs.files.filter (fun f => f.1 ≠ name) })

/-- Go `file.Write(b)` on the file opened last by `FS.Create`. -/
def FS.Write (fs : FS) (b : String) : FS :=
  match fs.files with
  | [] => fs
  | (name, content) :: rest => { fs with files := (name, content ++ b) :: rest }

/-- The content of the file at `name`, if it was created. -/
def FS.read (fs : FS) (name : String) : Option String :=
  (fs.files.find? (fun f => f.1 = name)).map Prod.snd

/-! ## archive_tar.go -/

/-- The archive formats the guessers can return (`PluginArchive`). -/
inductive PluginArchive where
  | TarArchive
  | VimballArchive
  | GzArchive (inner : PluginArchive)
  | BzipArchive (inner : PluginArchive)
  deriving DecidableEq, Repr

/-- The suffixes `init` of archive_tar.go appends to `supportedArchives`. -/
def tarSuffixes : List String := [".tar", ".tgz", ".tar.gz", ".tar.bz2"]

/-- The function `init` of archive_tar.go appends to `archiveGuesser`;
`none` is the `nil` archive. -/
def tarArchiveGuesser (n : String) : Option PluginArchive :=
  let ext := Ext n
  if ext = ".tar" then some .TarArchive
  else if ext = ".tar.gz" ∨ ext = ".tgz" then some (.GzArchive .TarArchive)
  else if ext = ".tar.bz2" ∨ ext = ".tar.bzip2" then some (.BzipArchive .TarArchive)
  else none

/-- Go `tar.TypeReg`, the byte `'0'`. -/
def TypeReg : Nat := 48
/-- Go `tar.TypeRegA`, the byte `'\x00'`. -/
def TypeRegA : Nat := 0
/-- Go `tar.TypeSymlink`, the byte `'2'`. -/
def TypeSymlink : Nat := 50
/-- Go `tar.TypeDir`, the byte `'5'`. -/
def TypeDir : Nat := 53

/-- The fields of a `tar.Header` that `handle` reads. -/
structure Header where
  Name : String
  Typeflag : Nat
  /-- the value of `header.FileInfo().IsDir()` -/
  IsDir : Bool
  deriving DecidableEq, Repr

/-- One entry of a tar stream: the header `reader.Next()` returns and what
reading the entry's data gives: the bytes, then the error if the read fails. -/
structure TarEntry where
  header : Header
  data : String
  dataErr : Option String
  deriving DecidableEq, Repr

/-- A tar stream as `tar.Reader` delivers it: the entries whose headers are
read, then `io.EOF` (`none`) or the error of the failing `Next()`. -/
structure TarStream where
  entries : List TarEntry
  tailErr : Option String
  deriving DecidableEq, Repr

/-- Whether `handle` goes on with an entry after its two kind tests: the
type flag is `TypeReg` or `TypeRegA` and the file info is not a directory. -/
def Header.isRegularFile (h : Header) : Bool :=
  !(h.Typeflag ≠ TypeReg ∧ h.Typeflag ≠ TypeRegA) && !h.IsDir

/-- The loop of `TarArchive.handle` over the entries left in the stream.
`strip` is `stripArchiveEntry`; `extract` is the callback, which works on a
state of type `σ` (the filesystem for extraction). -/
def TarArchive.handleLoop {σ : Type} (strip : String → Int → String × Bool)
    (extract : String → TarEntry → σ → Option GoError × σ)
    (folder : String) (stripDirs : Int) (tailErr : Option String) :
    List TarEntry → List String → σ → Result × σ
  | [], entries, st =>
    match tailErr with
    | none => ((some entries, none), st)
    | some e => ((none, some (.external e)), st)
  | e :: rest, entries, st =>
    if e.header.Typeflag ≠ TypeReg ∧ e.header.Typeflag ≠ TypeRegA then
      TarArchive.handleLoop strip extract folder stripDirs tailErr rest entries st
    else if e.header.IsDir then
      TarArchive.handleLoop strip extract folder stripDirs tailErr rest entries st
    else if HasPrefix e.header.Name "/" then
      ((none, some (.absoluteFilename e.header.Name)), st)
    else
      let (oname, isRoot) := strip e.header.Name stripDirs
      if isRoot then
        TarArchive.handleLoop strip extract folder stripDirs tailErr rest entries st
      else
        match extract (Join [folder, oname]) e st with
        | (some err, st1) => ((none, some err), st1)
        | (none, st1) =>
          TarArchive.handleLoop strip extract folder stripDirs tailErr rest
            (entries ++ [oname]) st1

/-- Go `TarArchive.handle`. -/
def TarArchive.handle {σ : Type} (strip : String → Int → String × Bool)
    (folder : String) (r : TarStream) (stripDirs : Int)
    (extract : String → TarEntry → σ → Option GoError × σ) (st : σ) : Result × σ :=
  TarArchive.handleLoop strip extract folder stripDirs r.tailErr r.entries [] st

/-- Go `tarExtractEntry`. -/
def tarExtractEntry (name : String) (r : TarEntry) (fs : FS) : Option GoError × FS :=
  match fs.MkdirAll (Dir name) with
  | (some err, fs1) => (some err, fs1)
  | (none, fs1) =>
    match fs1.Create name with
    | (some err, fs2) => (some err, fs2)
    | (none, fs2) => (r.dataErr.map GoError.external, fs2.Write r.data)

/-- Go `tarIgnoreEntry`. -/
def tarIgnoreEntry (_name : String) (r : TarEntry) (st : Unit) : Option GoError × Unit :=
  (r.dataErr.map GoError.external, st)

/-- Go `TarArchive.Extract`. -/
def TarArchive.Extract (strip : String → Int → String × Bool) (folder : String)
    (r : TarStream) (stripDirs : Int) (fs : FS) : Option GoError × FS :=
  let res := TarArchive.handle strip folder r stripDirs tarExtractEntry fs
  (res.1.2, res.2)

/-- Go `TarArchive.Entries`. -/
def TarArchive.Entries (strip : String → Int → String × Bool)
    (r : TarStream) (stripDirs : Int) : Result :=
  (TarArchive.handle strip "" r stripDirs tarIgnoreEntry ()).1

/-- The non-empty pieces of a name between its `/` separators. -/
def pathSegments (name : String) : List (List Char) :=
  (splitSlash name.data).filter (fun seg => seg ≠ [])

/-- Modelled from the spec: `stripArchiveEntry` is called by `handle` but is
not among the sources. The stripped path is the name without its first
`stripDirs` path segments, and an entry whose path has fewer than
`stripDirs + 1` segments is reported as root (and dropped by the caller). -/
def stripArchiveEntry (name : String) (stripDirs : Int) : String × Bool :=
  let segs := pathSegments name
  (⟨joinSlash (segs.drop stripDirs.toNat)⟩, decide ((segs.length : Int) < stripDirs + 1))

/-- The names `handle` accepts among the entries `es`: the stripped names of
the regular files that `strip` does not report as root, in archive order. -/
def acceptedNames (strip : String → Int → String × Bool) (stripDirs : Int)
    (es : List TarEntry) : List String :=
  (es.filter (fun e => e.header.isRegularFile)).filterMap
    (fun e => if (strip e.header.Name stripDirs).2 then none
      else some (strip e.header.Name stripDirs).1)

/-! ## archive_vimball.go -/

/-- Go `unicode.IsSpace`. -/
def isSpace (c : Char) : Bool :=
  let n := c.toNat
  (9 ≤ n && n ≤ 13) || n = 0x20 || n = 0x85 || n = 0xA0 || n = 0x1680 ||
    (0x2000 ≤ n && n ≤ 0x200A) || n = 0x2028 || n = 0x2029 || n = 0x202F ||
    n = 0x205F || n = 0x3000

/-- Go `strings.TrimSpace`. -/
def TrimSpace (s : String) : String :=
  ⟨((s.data.dropWhile isSpace).reverse.dropWhile isSpace).reverse⟩

/-- The first field of `strings.SplitN(line, "\t", 2)`: the text before the
first tab, the whole line if it has none. -/
def firstField (line : String) : String :=
  ⟨line.data.takeWhile (fun c => c ≠ '\t')⟩

/-- The digit loop of `strconv.ParseUint(s, 10, 64)`: a byte that is no digit
is a syntax error, a value above `2^64 - 1` a range error, whichever comes
first from the left. -/
def parseUintLoop : List Char → Nat → Except AtoiError Nat
  | [], n => .ok n
  | c :: cs, n =>
    if '0' ≤ c ∧ c ≤ '9' then
      let n1 := n * 10 + (c.toNat - '0'.toNat)
      if n1 ≥ 2 ^ 64 then .error .outOfRange else parseUintLoop cs n1
    else .error .notANumber

/-- Go `strconv.Atoi` with a 64-bit `int`: an optional sign, then one or more
decimal digits, the value within `[-2^63, 2^63 - 1]`. -/
def Atoi (s : String) : Except AtoiError Int :=
  let (neg, ds) : Bool × List Char :=
    match s.data with
    | '-' :: r => (true, r)
    | '+' :: r => (false, r)
    | r => (false, r)
  if ds = [] then .error .notANumber
  else
    match parseUintLoop ds 0 with
    | .error e => .error e
    | .ok un =>
      if !neg && un ≥ 2 ^ 63 then .error .outOfRange
      else if neg && un > 2 ^ 63 then .error .outOfRange
      else .ok (if neg then -(un : Int) else (un : Int))

/-- The input of a vimball reader as `bufio.Scanner` with `bufio.ScanLines`
delivers it: the lines it scans, then the end of the stream, which is a clean
end (`none`) or a scanner error (a read error, a line too long). -/
structure LineStream where
  lines : List String
  fail : Option String
  deriving DecidableEq, Repr

/-- The state of a `bufio.Scanner`. -/
structure Scanner where
  /-- the lines not scanned yet -/
  rest : List String
  /-- the error that ends the stream, `none` for a clean end -/
  fail : Option String
  /-- the value of `scanner.Text()` and `scanner.Bytes()` -/
  text : String
  /-- the value of `scanner.Err()` -/
  err : Option String
  deriving DecidableEq, Repr

/-- Go `bufio.NewScanner(r)`. -/
def NewScanner (r : LineStream) : Scanner :=
  { rest := r.lines, fail := r.fail, text := "", err := none }

/-- Go `scanner.Scan()`: the next line becomes the text, or the stream is at
its end and `Err()` takes the error that ended it. -/
def Scanner.Scan (s : Scanner) : Bool × Scanner :=
  match s.rest with
  | l :: ls => (true, { s with rest := ls, text := l })
  | [] => (false, { s with text := "", err := s.fail })

/-- The first loop of `VimballArchive.handle`,
`for scanner.Scan() && !pre.useVimball && !pre.finish`, from the scanner and
the two flags of `pre`; `none` when the fuel does not cover the loop. -/
def preambleLoop : Nat → Scanner → Bool → Bool → Option (Scanner × Bool × Bool)
  | 0, _, _, _ => none
  | fuel + 1, s, useVimball, finish =>
    match s.Scan with
    | (false, s1) => some (s1, useVimball, finish)
    | (true, s1) =>
      if !useVimball && !finish then
        let line := s1.text
        if !useVimball && line = "UseVimball" then
          preambleLoop fuel s1 true finish
        else if useVimball && !finish && line = "finish" then
          preambleLoop fuel s1 useVimball true
        else
          preambleLoop fuel s1 useVimball finish
      else some (s1, useVimball, finish)

/-- The type `_VimballExtractFunc`: the callback gets the scanner and leaves
it advanced; it works on a state of type `σ`. -/
abbrev VimballExtractFunc (σ : Type) :=
  String → Int → Scanner → σ → Option GoError × Scanner × σ

/-- The second loop of `VimballArchive.handle`, over the file records;
`none` when the fuel does not cover the loop. -/
def recordLoop {σ : Type} (extract : VimballExtractFunc σ) (folder : String) :
    Nat → Scanner → List String → σ → Option (Result × σ)
  | 0, _, _, _ => none
  | fuel + 1, s, contents, st =>
    match s.Scan with
    | (false, s1) => some ((some contents, s1.err.map GoError.external), st)
    | (true, s1) =>
      let line := s1.text
      let name := Clean (TrimSpace (firstField line))
      match s1.Scan with
      | (false, s2) => some ((none, some (.scanLineNumber name s2.err)), st)
      | (true, s2) =>
        match Atoi s2.text with
        | .error err => some ((none, some (.parseLineNumber name err)), st)
        | .ok nlines =>
          if nlines < 0 then some ((none, some (.negativeLineNumber name nlines)), st)
          else
            match extract (Join [folder, name]) nlines s2 st with
            | (some err, _, st1) => some ((none, some err), st1)
            | (none, s3, st1) => recordLoop extract folder fuel s3 (contents ++ [name]) st1

/-- Go `VimballArchive.handle`. Each turn of its loops scans a line, so one
more than the number of lines is fuel enough; `none` is never the result for
the two callbacks of the program. -/
def VimballArchive.handle {σ : Type} (folder : String) (r : LineStream)
    (extract : VimballExtractFunc σ) (st : σ) : Option (Result × σ) :=
  let scanner := NewScanner r
  match preambleLoop (r.lines.length + 1) scanner false false with
  | none => none
  | some (s1, useVimball, finish) =>
    if s1.err ≠ none then some ((none, s1.err.map GoError.external), st)
    else if !useVimball && !finish then some ((none, some .strangePreamble), st)
    else recordLoop extract folder (r.lines.length + 1) s1 [] st

/-- The loop of `extractFile`, `for lines > 0 && scanner.Scan()`, writing
`scanner.Bytes()` to the file. -/
def extractLoop : Nat → Scanner → FS → Scanner × FS
  | 0, s, fs => (s, fs)
  | lines + 1, s, fs =>
    match s.Scan with
    | (false, s1) => (s1, fs)
    | (true, s1) => extractLoop lines s1 (fs.Write s1.text)

/-- Go `VimballArchive.extractFile`. -/
def VimballArchive.extractFile : VimballExtractFunc FS := fun name lines scanner fs =>
  let dir := Dir name
  match fs.MkdirAll dir with
  | (some err, fs1) => (some err, scanner, fs1)
  | (none, fs1) =>
    match fs1.Create name with
    | (some err, fs2) => (some err, scanner, fs2)
    | (none, fs2) =>
      let (s1, fs3) := extractLoop lines.toNat scanner fs2
      (s1.err.map GoError.external, s1, fs3)

/-- The loop of `skipFile`, `for lines > 0 && scanner.Scan()`. -/
def skipLoop : Nat → Scanner → Scanner
  | 0, s => s
  | lines + 1, s =>
    match s.Scan with
    | (false, s1) => s1
    | (true, s1) => skipLoop lines s1

/-- Go `VimballArchive.skipFile`. -/
def VimballArchive.skipFile {σ : Type} : VimballExtractFunc σ := fun _name lines scanner st =>
  let s1 := skipLoop lines.toNat scanner
  (s1.err.map GoError.external, s1, st)

/-- Go `VimballArchive.Extract`: the error returned and the filesystem left. -/
def VimballArchive.Extract (folder : String) (r : LineStream) (_skipDir : Int) (fs : FS) :
    Option (Option GoError × FS) :=
  (VimballArchive.handle folder r VimballArchive.extractFile fs).map
    (fun res => (res.1.2, res.2))

/-- Go `VimballArchive.Entries`. -/
def VimballArchive.Entries (r : LineStream) (_skipDir : Int) : Option Result :=
  (VimballArchive.handle "" r VimballArchive.skipFile ()).map Prod.fst

/-- The scan of `splitLines`: `cur` is the line being read, reversed. -/
def splitLinesAux : List Char → List Char → List String
  | [], cur => if cur = [] then [] else [⟨cur.reverse⟩]
  | c :: cs, cur =>
    if c = '\n' then ⟨cur.reverse⟩ :: splitLinesAux cs [] else splitLinesAux cs (c :: cur)

/-- The lines of a file content: the text between line feeds, with a last line
that has no line feed (what `bufio.ScanLines` yields, carriage returns
apart). -/
def splitLines (content : String) : List String :=
  splitLinesAux content.data []

/-- One file record of a vimball: the name line, the count line and the
content lines. -/
structure VimballRecord where
  nameLine : String
  countLine : String
  content : List String
  deriving DecidableEq, Repr

/-- The lines of a record in the input. -/
def VimballRecord.lines (rec : VimballRecord) : List String :=
  rec.nameLine :: rec.countLine :: rec.content

/-- The name of a record as `handle` computes it: the text of the name line
before its first tab, trimmed of surrounding whitespace, then cleaned. -/
def VimballRecord.name (rec : VimballRecord) : String :=
  Clean (TrimSpace (firstField rec.nameLine))

/-- A record is well-formed when its count line parses to the number of its
content lines. -/
def VimballRecord.WellFormed (rec : VimballRecord) : Prop :=
  Atoi rec.countLine = .ok (rec.content.length : Int)

instance (rec : VimballRecord) : Decidable rec.WellFormed := by
  unfold VimballRecord.WellFormed
  infer_instance

/-- A vimball input: preamble lines, the line `UseVimball`, the line `finish`,
then the records, then whatever lines are left; the stream ends cleanly. -/
def vimballInput (pre : List String) (recs : List VimballRecord) (tail : List String) :
    LineStream :=
  { lines := pre ++ "UseVimball" :: "finish" :: (recs.flatMap VimballRecord.lines ++ tail),
    fail := none }

/-- A callback of `handle` with its invocations recorded: the state carries,
next to the state of the callback, the names it was called with, in order. -/
def traced {σ : Type} (extract : VimballExtractFunc σ) :
    VimballExtractFunc (σ × List String) :=
  fun name lines scanner st =>
    ((extract name lines scanner st.1).1, (extract name lines scanner st.1).2.1,
      ((extract name lines scanner st.1).2.2, st.2 ++ [name]))

/-- A callback that, when it returns no error for a record whose content
lines are all there, has left the scanner right after them. -/
def ConsumesContent {σ : Type} (extract : VimballExtractFunc σ) : Prop :=
  ∀ (name : String) (content tail : List String) (s : Scanner) (st : σ),
    s.rest = content ++ tail → s.err = none →
    (extract name (content.length : Int) s st).1 = none →
      (extract name (content.length : Int) s st).2.1.rest = tail ∧
      (extract name (content.length : Int) s st).2.1.err = none

/-- A filesystem on which `os.MkdirAll` and `os.Create` never fail. -/
def FS.Healthy (fs : FS) : Prop :=
  ∀ path, fs.mkdirAllErr path = none ∧ fs.createErr path = none

/-! ## http.go -/

/-- What `http.Get` hands to `httpGET` of a response: the status code and the
body, as the bytes a reader of the body gets and then the error of the failing
read, if one fails (`none`: the body ends with `io.EOF`). -/
structure Response where
  StatusCode : Int
  body : String
  bodyErr : Option String
  deriving DecidableEq, Repr

/-- An `io.Writer` sink: the bytes it has received, and whether it refuses
bytes: `some (k, e)` is a sink that takes `k` more bytes and then fails with
`e`; `none` is a sink that takes everything. -/
structure Writer where
  written : String
  failAfter : Option (Nat × String)
  deriving DecidableEq, Repr

/-- Go `io.Copy(w, reader)` on a reader that yields `data` and then ends with
`readErr`: the error returned, the sink afterwards, and the bytes read from
the reader. -/
def ioCopy (w : Writer) (data : String) (readErr : Option String) :
    Option GoError × Writer × String :=
  match w.failAfter with
  | some (k, e) =>
    if k < data.length then
      (some (.external e),
        { written := w.written ++ ⟨data.data.take k⟩, failAfter := some (0, e) }, data)
    else
      (readErr.map GoError.external,
        { written := w.written ++ data, failAfter := some (k - data.length, e) }, data)
  | none => (readErr.map GoError.external, { w with written := w.written ++ data }, data)

/-- Go `httpGET`. `sha1Hex b` is `hex.EncodeToString` of the SHA-1 digest of
the bytes `b` (the hasher has been written `b`); `get` is `http.Get`. The
result is the error returned and the sink afterwards. -/
def httpGET (sha1Hex : String → String) (get : String → Except String Response)
    (w : Writer) (url checkSha1 : String) : Option GoError × Writer :=
  match get url with
  | .error e => (some (.external e), w)
  | .ok resp =>
    if resp.StatusCode ≠ 200 then (some (.badStatus resp.StatusCode url), w)
    else
      -- with a checksum the reader is a TeeReader: what is read goes to the hasher
      let tee : Bool := checkSha1 ≠ ""
      match ioCopy w resp.body resp.bodyErr with
      | (some err, w1, _) => (some err, w1)
      | (none, w1, read) =>
        let hashed := if tee then read else ""
        let sha1Sum := sha1Hex hashed
        if checkSha1 ≠ "" ∧ checkSha1 ≠ sha1Sum then
          (some (.message ("sha1 does not match: got " ++ sha1Sum ++ ", expected " ++ checkSha1)),
            w1)
        else (none, w1)

/-! ## vopher.go -/

/-- The fields of `url.URL` that `update` reads or writes. -/
structure URL where
  Host : String
  Path : String
  Fragment : String
  deriving DecidableEq, Repr

/-- An element of `PluginList`. -/
structure Plugin where
  name : String
  url : URL
  strip_dir : Int
  deriving DecidableEq, Repr

/-- What `update` does to the outside, in order. -/
inductive Event where
  | uiStart
  /-- the HEAD request of `httpdetect_ftype(url)` -/
  | probe (url : String)
  /-- `log.Printf("error: %q: %s", plugin.url, err)` -/
  | logProbeError (url : String) (err : String)
  /-- `log.Printf("error: %q: not a zip", plugin.url)` -/
  | logNotAZip (url : String)
  | uiAddJob (jobID : String)
  /-- `go acquire(plugin_folder, url, strip_dir, ui)` -/
  | goAcquire (folder url : String) (strip_dir : Int)
  | uiWait
  | uiStop
  deriving DecidableEq, Repr

/-- The outside world of `update`. -/
structure World where
  /-- whether `os.Stat path` returns a `nil` error: the path exists -/
  statOk : String → Bool
  /-- the result of `httpdetect_ftype(url)` -/
  detectFtype : String → Except String String
  /-- Go `(*url.URL).String` -/
  urlString : URL → String

/-- Modelled from the spec: `first_not_empty` is called by `update` but is not
among the sources; for a URL without ref fragment the spec has the default
branch name taken, so the result is the first argument that is not empty. -/
def first_not_empty : List String → String
  | [] => ""
  | s :: rest => if s ≠ "" then s else first_not_empty rest

/-- The body of the `for` loop of `update` for one plugin. -/
def updatePlugin (world : World) (dir : String) (force : Bool) (plugin : Plugin) :
    List Event :=
  let plugin_folder := Join [dir, plugin.name]
  if world.statOk plugin_folder ∧ !force then []
  else
    if !HasSuffix plugin.url.Path ".zip" then
      if plugin.url.Host = "github.com" then
        let remote_zip := first_not_empty [plugin.url.Fragment, "master"] ++ ".zip"
        let url := { plugin.url with Path := Join [plugin.url.Path, "archive", remote_zip] }
        [.uiAddJob plugin_folder,
          .goAcquire plugin_folder (world.urlString url) plugin.strip_dir]
      else
        match world.detectFtype (world.urlString plugin.url) with
        | .error err =>
          [.probe (world.urlString plugin.url),
            .logProbeError (world.urlString plugin.url) err]
        | .ok ext =>
          if ext ≠ ".zip" then
            [.probe (world.urlString plugin.url), .logNotAZip (world.urlString plugin.url)]
          else
            [.probe (world.urlString plugin.url), .uiAddJob plugin_folder,
              .goAcquire plugin_folder (world.urlString plugin.url) plugin.strip_dir]
    else
      [.uiAddJob plugin_folder,
        .goAcquire plugin_folder (world.urlString plugin.url) plugin.strip_dir]

/-- Go `update`. -/
def update (world : World) (plugins : List Plugin) (dir : String) (force : Bool) :
    List Event :=
  [.uiStart] ++ plugins.flatMap (updatePlugin world dir force) ++ [.uiWait, .uiStop]

/-! ## Example inputs -/

/-- An archive with a regular file `plugin/a.vim` and then a regular file with
the absolute name `/etc/passwd`. -/
def absoluteFileStream : TarStream :=
  { entries := [⟨⟨"plugin/a.vim", TypeReg, false⟩, "a", none⟩,
                ⟨⟨"/etc/passwd", TypeReg, false⟩, "x", none⟩],
    tailErr := none }

/-- An archive with a symbolic link named `/etc/passwd` and then a regular file
`plugin/a.vim`. -/
def absoluteSymlinkStream : TarStream :=
  { entries := [⟨⟨"/etc/passwd", TypeSymlink, false⟩, "", none⟩,
                ⟨⟨"plugin/a.vim", TypeReg, false⟩, "a", none⟩],
    tailErr := none }

/-- An archive with a directory, a file at top level, two files below the
directory and a symbolic link. -/
def pluginStream : TarStream :=
  { entries := [⟨⟨"vim-x/", TypeDir, true⟩, "", none⟩,
                ⟨⟨"vim-x", TypeReg, false⟩, "top", none⟩,
                ⟨⟨"vim-x/plugin/x.vim", TypeReg, false⟩, "x", none⟩,
                ⟨⟨"vim-x/link", TypeSymlink, false⟩, "", none⟩,
                ⟨⟨"vim-x/doc/x.txt", TypeRegA, false⟩, "doc", none⟩],
    tailErr := none }

/-- A vimball preamble as the format documents it, without the two sentinel
lines. -/
def samplePreamble : List String :=
  ["\" Vimball Archiver by Charles E. Campbell, Jr., Ph.D."]

/-- The record `docs/foo.txt` with two content lines. -/
def fooRecord : VimballRecord :=
  { nameLine := "docs/foo.txt\t[[[1", countLine := "2", content := ["line one", "line two"] }

/-- Digests for the sample download: the SHA-1 of `abc`, and the SHA-1 of the
empty input for everything else. -/
def sampleSha1Hex (b : String) : String :=
  if b = "abc" then "a9993e364706816aba3e25717850c26c9cd0d89d"
  else "da39a3ee5e6b4b0d3255bfef95601890afd80709"

/-- A server that answers every URL with status 200 and the body `abc`. -/
def sampleGet (_url : String) : Except String Response :=
  .ok { StatusCode := 200, body := "abc", bodyErr := none }

/-- A world in which only `bundle/vim-a` exists and the probe finds a zip. -/
def sampleWorld : World :=
  { statOk := fun path => path = "bundle/vim-a",
    detectFtype := fun _ => .ok ".zip",
    urlString := fun u => "https://" ++ u.Host ++ u.Path }

/-- Two plugins; the destination of the first one exists in `sampleWorld`. -/
def samplePlugins : List Plugin :=
  [{ name := "vim-a", url := ⟨"github.com", "/x/vim-a", ""⟩, strip_dir := 1 },
   { name := "vim-b", url := ⟨"example.org", "/vim-b", ""⟩, strip_dir := 1 }]

/-- The lines run together, with nothing between them. -/
def concatLines : List String → String
  | [] => ""
  | l :: ls => l ++ concatLines ls

/-! ## Theorems: archive_tar.go -/

theorem TarArchive.handleLoop_absolute {σ : Type} (strip : String → Int → String × Bool)
    (extract : String → TarEntry → σ → Option GoError × σ) (folder : String)
    (stripDirs : Int) (tailErr : Option String) (es : List TarEntry)
    (h : ∃ e ∈ es, e.header.isRegularFile = true ∧ HasPrefix e.header.Name "/" = true) :
    ∀ (acc : List String) (st : σ),
      ∃ err, (TarArchive.handleLoop strip extract folder stripDirs tailErr es acc st).1
        = (none, some err) := by
  induction es with
  | nil => simp at h
  | cons e rest ih =>
    intro acc st
    unfold TarArchive.handleLoop
    by_cases hreg : e.header.isRegularFile = true
    · have h1 : ¬ (e.header.Typeflag ≠ TypeReg ∧ e.header.Typeflag ≠ TypeRegA) := by
        intro hc
        simp [Header.isRegularFile, hc.1, hc.2] at hreg
      have h2 : e.header.IsDir = false := by
        cases hd : e.header.IsDir
        · rfl
        · simp [Header.isRegularFile, hd] at hreg
      rw [if_neg h1]
      simp only [h2, Bool.false_eq_true, if_false]
      by_cases habs : HasPrefix e.header.Name "/" = true
      · rw [if_pos habs]
        exact ⟨_, rfl⟩
      · rw [if_neg habs]
        have hrest : ∃ e' ∈ rest, e'.header.isRegularFile = true ∧
            HasPrefix e'.header.Name "/" = true := by
          obtain ⟨e', hmem, hr, ha⟩ := h
          rcases List.mem_cons.mp hmem with rfl | hm
          · exact absurd ha habs
          · exact ⟨e', hm, hr, ha⟩
        rcases hs : strip e.header.Name stripDirs with ⟨oname, isRoot⟩
        simp only []
        cases isRoot
        · simp only [Bool.false_eq_true, if_false]
          rcases hx : extract (Join [folder, oname]) e st with ⟨oerr, st1⟩
          cases oerr with
          | some err => exact ⟨err, rfl⟩
          | none => exact ih hrest _ _
        · simp only [if_true]
          exact ih hrest _ _
    · have hrest : ∃ e' ∈ rest, e'.header.isRegularFile = true ∧
          HasPrefix e'.header.Name "/" = true := by
        obtain ⟨e', hmem, hr, ha⟩ := h
        rcases List.mem_cons.mp hmem with rfl | hm
        · exact absurd hr hreg
        · exact ⟨e', hm, hr, ha⟩
      by_cases h1 : e.header.Typeflag ≠ TypeReg ∧ e.header.Typeflag ≠ TypeRegA
      · rw [if_pos h1]
        exact ih hrest _ _
      · rw [if_neg h1]
        have h2 : e.header.IsDir = true := by
          cases hd : e.header.IsDir
          · exfalso; apply hreg; simp [Header.isRegularFile, hd, h1]
          · rfl
        rw [if_pos h2]
        exact ih hrest _ _

theorem acceptedNames_nil (strip : String → Int → String × Bool) (stripDirs : Int) :
    acceptedNames strip stripDirs [] = [] := rfl

theorem acceptedNames_cons (strip : String → Int → String × Bool) (stripDirs : Int)
    (e : TarEntry) (es : List TarEntry) :
    acceptedNames strip stripDirs (e :: es) =
      (if e.header.isRegularFile = true ∧ (strip e.header.Name stripDirs).2 = false
        then [(strip e.header.Name stripDirs).1] else [])
        ++ acceptedNames strip stripDirs es := by
  unfold acceptedNames
  by_cases hreg : e.header.isRegularFile = true
  · cases hroot : (strip e.header.Name stripDirs).2 <;>
      simp [List.filter_cons, hreg, hroot, List.filterMap_cons]
  · simp [List.filter_cons, hreg]

theorem TarArchive.handleLoop_ignore (strip : String → Int → String × Bool)
    (folder : String) (stripDirs : Int) (es : List TarEntry)
    (hData : ∀ e ∈ es, e.dataErr = none)
    (hAbs : ∀ e ∈ es, HasPrefix e.header.Name "/" = false) :
    ∀ (acc : List String),
      TarArchive.handleLoop strip tarIgnoreEntry folder stripDirs none es acc ()
        = ((some (acc ++ acceptedNames strip stripDirs es), none), ()) := by
  induction es with
  | nil => intro acc; simp [TarArchive.handleLoop, acceptedNames_nil]
  | cons e rest ih =>
    intro acc
    have ihr := ih (fun x hx => hData x (List.mem_cons_of_mem _ hx))
      (fun x hx => hAbs x (List.mem_cons_of_mem _ hx))
    have hd := hData e (List.mem_cons_self _ _)
    have ha := hAbs e (List.mem_cons_self _ _)
    unfold TarArchive.handleLoop
    rw [acceptedNames_cons]
    by_cases h1 : e.header.Typeflag ≠ TypeReg ∧ e.header.Typeflag ≠ TypeRegA
    · rw [if_pos h1]
      have hreg : ¬ (e.header.isRegularFile = true ∧
          (strip e.header.Name stripDirs).2 = false) := by
        simp [Header.isRegularFile, h1.1, h1.2]
      rw [if_neg hreg, ihr]; simp
    · rw [if_neg h1]
      cases h2 : e.header.IsDir
      · simp only [Bool.false_eq_true, if_false, ha]
        have hreg : e.header.isRegularFile = true := by
          simp only [Header.isRegularFile, h2]
          have h1' : e.header.Typeflag = TypeReg ∨ e.header.Typeflag = TypeRegA := by
            by_contra hc
            exact h1 ⟨fun h => hc (Or.inl h), fun h => hc (Or.inr h)⟩
          rcases h1' with h | h <;> simp [h]
        rcases hs : strip e.header.Name stripDirs with ⟨oname, isRoot⟩
        simp only []
        cases isRoot
        · simp only [Bool.false_eq_true, if_false, tarIgnoreEntry, hd, Option.map_none']
          rw [ihr]
          simp [hreg]
        · simp only [if_true]
          rw [ihr]
          simp
      · simp only [if_true]
        have hreg : ¬ (e.header.isRegularFile = true ∧
            (strip e.header.Name stripDirs).2 = false) := by
          simp [Header.isRegularFile, h2]
        rw [if_neg hreg, ihr]; simp

theorem acceptedNames_length (stripDirs : Int) (es : List TarEntry) :
    (acceptedNames stripArchiveEntry stripDirs es).length =
      (es.filter (fun e => e.header.isRegularFile &&
        decide (stripDirs < ((pathSegments e.header.Name).length : Int)))).length := by
  induction es with
  | nil => rfl
  | cons e rest ih =>
    rw [acceptedNames_cons, List.length_append, ih, List.filter_cons]
    by_cases hreg : e.header.isRegularFile = true
    · by_cases hseg : stripDirs < ((pathSegments e.header.Name).length : Int)
      · have : (stripArchiveEntry e.header.Name stripDirs).2 = false := by
          simp only [stripArchiveEntry, decide_eq_false_iff_not]; omega
        simp [hreg, hseg, this]; omega
      · have : (stripArchiveEntry e.header.Name stripDirs).2 = true := by
          simp only [stripArchiveEntry, decide_eq_true_eq]; omega
        simp [hreg, hseg, this]
    · simp [hreg]

/-- C1 (amended): for every tar stream, every `stripDirs`, every target folder
and every callback, if some entry that `handle` treats as a regular file (type
flag `TypeReg` or `TypeRegA`, file info not a directory) has a declared name
starting with `/`, then `handle` returns a `nil` entry list and a non-nil
error, wherever the entry stands in the archive; so do `Entries` and
`Extract`, which are `handle` with their callbacks. -/
theorem TarArchive.handle_absolute_regular_entry_fails {σ : Type}
    (strip : String → Int → String × Bool) (folder : String) (r : TarStream)
    (stripDirs : Int) (extract : String → TarEntry → σ → Option GoError × σ) (st : σ) (fs : FS)
    (h : ∃ e ∈ r.entries, e.header.isRegularFile = true ∧ HasPrefix e.header.Name "/" = true) :
    (∃ err, (TarArchive.handle strip folder r stripDirs extract st).1 = (none, some err)) ∧
    (∃ err, TarArchive.Entries strip r stripDirs = (none, some err)) ∧
    (∃ err, (TarArchive.Extract strip folder r stripDirs fs).1 = some err) := by
  refine ⟨?_, ?_, ?_⟩
  · exact TarArchive.handleLoop_absolute strip extract folder stripDirs r.tailErr r.entries h [] st
  · exact TarArchive.handleLoop_absolute strip tarIgnoreEntry "" stripDirs r.tailErr r.entries h [] ()
  · obtain ⟨err, he⟩ :=
      TarArchive.handleLoop_absolute strip tarExtractEntry folder stripDirs r.tailErr r.entries h [] fs
    refine ⟨err, ?_⟩
    simp only [TarArchive.Extract, TarArchive.handle]
    rw [he]

/-- C1 (amended), at an archive whose second entry is a regular file named
`/etc/passwd`: enumeration and extraction fail for the whole archive. -/
theorem TarArchive.handle_absolute_regular_entry_fails_witness :
    (∃ err, (TarArchive.handle stripArchiveEntry "" absoluteFileStream 0 tarIgnoreEntry ()).1
      = (none, some err)) ∧
    (∃ err, TarArchive.Entries stripArchiveEntry absoluteFileStream 0 = (none, some err)) ∧
    (∃ err, (TarArchive.Extract stripArchiveEntry "out" absoluteFileStream 0 FS.empty).1
      = some err) :=
  TarArchive.handle_absolute_regular_entry_fails stripArchiveEntry "" absoluteFileStream 0
    tarIgnoreEntry () FS.empty
    ⟨⟨⟨"/etc/passwd", TypeReg, false⟩, "x", none⟩, by decide, by decide, by decide⟩

/-- C1, counterexample: the archive has an entry whose declared name starts
with `/` (a symbolic link), its headers are read without error, and `Entries`
returns the entry list `["a.vim"]` with a `nil` error. -/
theorem TarArchive.handle_absolute_symlink_passes :
    absoluteSymlinkStream.tailErr = none ∧
    (absoluteSymlinkStream.entries.any (fun e => HasPrefix e.header.Name "/")) = true ∧
    TarArchive.Entries stripArchiveEntry absoluteSymlinkStream 1 = (some ["a.vim"], none) := by
  decide

/-- C6: for a tar stream read without container error (the headers end with
`io.EOF`, no read of entry data fails) that has no entry with an absolute
name, and every `stripDirs`: whatever `stripArchiveEntry` computes, `Entries`
returns a `nil` error and exactly, in archive order, the stripped names of
the entries that are regular files (type flag `TypeReg` or `TypeRegA`, not a
directory) and that `stripArchiveEntry` does not report as root; and with
`stripArchiveEntry` as the spec has it, the length of the list is the number
of regular-file entries with strictly more than `stripDirs` path segments. -/
theorem TarArchive.Entries_regular_files (r : TarStream) (stripDirs : Int)
    (hEOF : r.tailErr = none)
    (hData : ∀ e ∈ r.entries, e.dataErr = none)
    (hAbs : ∀ e ∈ r.entries, HasPrefix e.header.Name "/" = false) :
    (∀ strip : String → Int → String × Bool,
      TarArchive.Entries strip r stripDirs =
        (some ((r.entries.filter (fun e => e.header.isRegularFile)).filterMap
          (fun e => if (strip e.header.Name stripDirs).2 then none
            else some (strip e.header.Name stripDirs).1)), none)) ∧
    (∃ names, TarArchive.Entries stripArchiveEntry r stripDirs = (some names, none) ∧
      names.length = (r.entries.filter (fun e => e.header.isRegularFile &&
        decide (stripDirs < ((pathSegments e.header.Name).length : Int)))).length) := by
  have key : ∀ strip : String → Int → String × Bool,
      TarArchive.Entries strip r stripDirs =
        (some (acceptedNames strip stripDirs r.entries), none) := by
    intro strip
    simp only [TarArchive.Entries, TarArchive.handle, hEOF]
    rw [TarArchive.handleLoop_ignore strip "" stripDirs r.entries hData hAbs []]
    simp
  refine ⟨fun strip => key strip, ?_⟩
  exact ⟨_, key stripArchiveEntry, acceptedNames_length stripDirs r.entries⟩

/-- C6 at `pluginStream` with one directory stripped. -/
theorem TarArchive.Entries_regular_files_witness :
    (∀ strip : String → Int → String × Bool,
      TarArchive.Entries strip pluginStream 1 =
        (some ((pluginStream.entries.filter (fun e => e.header.isRegularFile)).filterMap
          (fun e => if (strip e.header.Name 1).2 then none
            else some (strip e.header.Name 1).1)), none)) ∧
    (∃ names, TarArchive.Entries stripArchiveEntry pluginStream 1 = (some names, none) ∧
      names.length = (pluginStream.entries.filter (fun e => e.header.isRegularFile &&
        decide ((1 : Int) < ((pathSegments e.header.Name).length : Int)))).length) :=
  TarArchive.Entries_regular_files pluginStream 1 (by decide) (by decide) (by decide)

theorem Ext_of_data_append (n : String) (pre suf : List Char) (h : n.data = pre ++ suf) :
    Ext n = ⟨extRev (suf.reverse ++ pre.reverse) []⟩ := by
  simp [Ext, h]

theorem HasSuffix_data (n suf : String) (h : HasSuffix n suf = true) :
    ∃ pre, n.data = pre ++ suf.data := by
  unfold HasSuffix at h
  rw [List.isSuffixOf_iff_suffix] at h
  obtain ⟨pre, hp⟩ := h
  exact ⟨pre, hp.symm⟩

/-- C5: for every file name that ends in `.tar.gz` or in `.tar.bz2`, two of
the suffixes `init` registers as supported, `path.Ext` gives only the last
part (`.gz`, `.bz2`), no case of the switch matches and the guesser returns
the `nil` archive. -/
theorem tarArchiveGuesser_compound_suffix_nil (n : String)
    (h : HasSuffix n ".tar.gz" = true ∨ HasSuffix n ".tar.bz2" = true) :
    (Ext n = ".gz" ∨ Ext n = ".bz2") ∧ tarArchiveGuesser n = none := by
  rcases h with h | h
  · obtain ⟨pre, hp⟩ := HasSuffix_data n ".tar.gz" h
    have hext : Ext n = ".gz" := by
      rw [Ext_of_data_append n pre _ hp]
      simp [extRev]
    refine ⟨Or.inl hext, ?_⟩
    simp only [tarArchiveGuesser, hext]
    decide
  · obtain ⟨pre, hp⟩ := HasSuffix_data n ".tar.bz2" h
    have hext : Ext n = ".bz2" := by
      rw [Ext_of_data_append n pre _ hp]
      simp [extRev]
    refine ⟨Or.inr hext, ?_⟩
    simp only [tarArchiveGuesser, hext]
    decide

/-- C5 at the file name `plugin.tar.gz`: it ends in a supported suffix and the
guesser returns the `nil` archive. -/
theorem tarArchiveGuesser_compound_suffix_nil_witness :
    (Ext "plugin.tar.gz" = ".gz" ∨ Ext "plugin.tar.gz" = ".bz2") ∧
      tarArchiveGuesser "plugin.tar.gz" = none :=
  tarArchiveGuesser_compound_suffix_nil "plugin.tar.gz" (Or.inl (by decide))

/-- The cases of the guesser that do match: a name ending in `.tar` gives a
plain `TarArchive`, a name ending in `.tgz` a `GzArchive` around one. -/
theorem tarArchiveGuesser_simple_suffix (n : String) :
    (HasSuffix n ".tar" = true → tarArchiveGuesser n = some .TarArchive) ∧
    (HasSuffix n ".tgz" = true → tarArchiveGuesser n = some (.GzArchive .TarArchive)) := by
  constructor
  · intro h
    obtain ⟨pre, hp⟩ := HasSuffix_data n ".tar" h
    have hext : Ext n = ".tar" := by
      rw [Ext_of_data_append n pre _ hp]
      simp [extRev]
    simp only [tarArchiveGuesser, hext]
    decide
  · intro h
    obtain ⟨pre, hp⟩ := HasSuffix_data n ".tgz" h
    have hext : Ext n = ".tgz" := by
      rw [Ext_of_data_append n pre _ hp]
      simp [extRev]
    simp only [tarArchiveGuesser, hext]
    decide

/-! ## Theorems: archive_vimball.go -/

theorem Scanner.Scan_cons (s : Scanner) (l : String) (ls : List String)
    (h : s.rest = l :: ls) : s.Scan = (true, { s with rest := ls, text := l }) := by
  simp [Scanner.Scan, h]

theorem Scanner.Scan_nil (s : Scanner) (h : s.rest = []) :
    s.Scan = (false, { s with text := "", err := s.fail }) := by
  simp [Scanner.Scan, h]

/-- The preamble loop on lines without `UseVimball`, then `UseVimball`, then
one more line: it stops after that line, with `useVimball` set and `finish`
not set. -/
theorem preambleLoop_useVimball (pre : List String) (x : String) (rest : List String)
    (hpre : "UseVimball" ∉ pre) :
    ∀ (fuel : Nat) (s : Scanner), s.rest = pre ++ "UseVimball" :: x :: rest →
      pre.length + 2 ≤ fuel →
      preambleLoop fuel s false false
        = some ({ s with rest := rest, text := x }, true, false) := by
  induction pre with
  | nil =>
    intro fuel s hs hf
    obtain ⟨f1, rfl⟩ : ∃ f1, fuel = f1 + 2 := ⟨fuel - 2, by simp at hf; omega⟩
    simp only [List.nil_append] at hs
    simp only [preambleLoop, Scanner.Scan_cons s _ _ hs]
    simp [Scanner.Scan]
  | cons p ps ih =>
    intro fuel s hs hf
    obtain ⟨f1, rfl⟩ : ∃ f1, fuel = f1 + 1 := ⟨fuel - 1, by simp at hf; omega⟩
    have hp : p ≠ "UseVimball" := fun h => hpre (h ▸ List.mem_cons_self _ _)
    have hps : "UseVimball" ∉ ps := fun h => hpre (List.mem_cons_of_mem _ h)
    simp only [List.cons_append] at hs
    simp only [preambleLoop, Scanner.Scan_cons s _ _ hs]
    simp only [Bool.not_false, Bool.and_self, if_true, Bool.true_and, hp, decide_False,
      Bool.false_and, Bool.false_eq_true, if_false]
    rw [ih hps f1 _ rfl (by simp at hf ⊢; omega)]

/-- The loop of `skipFile` over the content lines of a record that are all
there: it leaves the scanner right after them. -/
theorem skipLoop_content (content tail : List String) :
    ∀ (s : Scanner), s.rest = content ++ tail →
      (skipLoop content.length s).rest = tail ∧
      (skipLoop content.length s).fail = s.fail ∧
      (skipLoop content.length s).err = s.err := by
  induction content with
  | nil => intro s hs; simpa [skipLoop] using hs
  | cons c cs ih =>
    intro s hs
    simp only [List.cons_append] at hs
    simp only [List.length_cons, skipLoop, Scanner.Scan_cons s _ _ hs]
    exact ih _ rfl

theorem skipFile_content {σ : Type} (name : String) (content tail : List String)
    (s : Scanner) (st : σ) (hs : s.rest = content ++ tail) (he : s.err = none) :
    ∃ s1, VimballArchive.skipFile name (content.length : Int) s st = (none, s1, st) ∧
      s1.rest = tail ∧ s1.fail = s.fail ∧ s1.err = none := by
  obtain ⟨h1, h2, h3⟩ := skipLoop_content content tail s hs
  refine ⟨skipLoop content.length s, ?_, h1, h2, h3.trans he⟩
  simp [VimballArchive.skipFile, h3, he]

/-- The record loop of `Entries` on well-formed records up to a clean end of
the stream: all names, no error. -/
theorem recordLoop_skipFile_wellFormed (folder : String) (recs : List VimballRecord) :
    ∀ (fuel : Nat) (s : Scanner) (acc : List String),
      s.rest = recs.flatMap VimballRecord.lines → s.fail = none → s.err = none →
      (∀ rec ∈ recs, rec.WellFormed) → recs.length < fuel →
      recordLoop VimballArchive.skipFile folder fuel s acc ()
        = some ((some (acc ++ recs.map VimballRecord.name), none), ()) := by
  induction recs with
  | nil =>
    intro fuel s acc hs hfail herr _ hf
    obtain ⟨f1, rfl⟩ : ∃ f1, fuel = f1 + 1 := ⟨fuel - 1, by simp at hf; omega⟩
    simp only [List.flatMap_nil] at hs
    simp [recordLoop, Scanner.Scan_nil s hs, hfail]
  | cons rec rest ih =>
    intro fuel s acc hs hfail herr hwf hf
    obtain ⟨f1, rfl⟩ : ∃ f1, fuel = f1 + 1 := ⟨fuel - 1, by simp at hf; omega⟩
    have hrec : rec.WellFormed := hwf rec (List.mem_cons_self _ _)
    have hrest : ∀ r ∈ rest, r.WellFormed := fun r hr => hwf r (List.mem_cons_of_mem _ hr)
    simp only [List.flatMap_cons, VimballRecord.lines, List.cons_append] at hs
    unfold VimballRecord.WellFormed at hrec
    obtain ⟨s3, hskip, h3rest, h3fail, h3err⟩ :=
      skipFile_content (σ := Unit) (Join [folder, rec.name]) rec.content
        (rest.flatMap VimballRecord.lines)
        { s with rest := rec.content ++ rest.flatMap VimballRecord.lines, text := rec.countLine }
        () rfl herr
    have hneg : ¬ ((rec.content.length : Int) < 0) := by omega
    simp only [recordLoop, Scanner.Scan_cons s _ _ hs]
    simp only [Scanner.Scan, hrec, hneg, if_false]
    rw [show Clean (TrimSpace (firstField rec.nameLine)) = rec.name from rfl, hskip]
    simp only []
    rw [ih f1 s3 _ h3rest (h3fail.trans hfail) h3err hrest (by simp at hf; omega)]
    simp

/-- C7 (amended): for every input made of preamble lines none of which is
`UseVimball`, then `UseVimball`, then `finish`, then `k ≥ 0` records, each a
name line, a count line that `strconv.Atoi` parses to the number `N` of the
record's content lines, and those `N` content lines, with a clean end of the
stream, and every `skipDir`: `Entries` returns no error and exactly the `k`
record names in input order, each the text of the name line before its first
tab, trimmed and cleaned, not stripped by `skipDir`. -/
theorem VimballArchive.Entries_wellFormed (pre : List String) (recs : List VimballRecord)
    (skipDir : Int) (hpre : "UseVimball" ∉ pre) (hwf : ∀ rec ∈ recs, rec.WellFormed) :
    VimballArchive.Entries (vimballInput pre recs []) skipDir
      = some (some (recs.map (fun rec => Clean (TrimSpace (firstField rec.nameLine)))), none) := by
  have hlen : (vimballInput pre recs []).lines.length
      = pre.length + 2 + (recs.flatMap VimballRecord.lines).length := by
    simp [vimballInput]; omega
  have hrl : recs.length ≤ (recs.flatMap VimballRecord.lines).length := by
    clear hwf hlen
    induction recs with
    | nil => simp
    | cons r rs ih =>
      have h2 : 2 ≤ r.lines.length := by simp [VimballRecord.lines]
      rw [List.flatMap_cons, List.length_append, List.length_cons]
      omega
  simp only [VimballArchive.Entries, VimballArchive.handle]
  rw [preambleLoop_useVimball pre "finish" (recs.flatMap VimballRecord.lines ++ []) hpre _ _
    (by simp [NewScanner, vimballInput]) (by omega)]
  simp only [NewScanner, ne_eq, not_true_eq_false, if_false, Bool.not_true, Bool.false_and,
    Bool.false_eq_true]
  rw [recordLoop_skipFile_wellFormed "" recs _ _ [] (by simp) rfl rfl hwf (by omega)]
  rfl

theorem flatMap_lines_length (recs : List VimballRecord) :
    recs.length ≤ (recs.flatMap VimballRecord.lines).length := by
  induction recs with
  | nil => simp
  | cons r rs ih =>
    have h2 : 2 ≤ r.lines.length := by simp [VimballRecord.lines]
    rw [List.flatMap_cons, List.length_append, List.length_cons]
    omega

theorem FS.Write_mkdirAllErr (fs : FS) (b : String) :
    (fs.Write b).mkdirAllErr = fs.mkdirAllErr ∧ (fs.Write b).createErr = fs.createErr := by
  unfold FS.Write
  split <;> exact ⟨rfl, rfl⟩

theorem extractLoop_content (content tail : List String) :
    ∀ (s : Scanner) (fs : FS), s.rest = content ++ tail →
      (extractLoop content.length s fs).1.rest = tail ∧
      (extractLoop content.length s fs).1.fail = s.fail ∧
      (extractLoop content.length s fs).1.err = s.err ∧
      (extractLoop content.length s fs).2.mkdirAllErr = fs.mkdirAllErr ∧
      (extractLoop content.length s fs).2.createErr = fs.createErr := by
  induction content with
  | nil => intro s fs hs; simpa [extractLoop] using hs
  | cons c cs ih =>
    intro s fs hs
    simp only [List.cons_append] at hs
    simp only [List.length_cons, extractLoop, Scanner.Scan_cons s _ _ hs]
    obtain ⟨h1, h2, h3, h4, h5⟩ := ih { s with rest := cs ++ tail, text := c } (fs.Write c) rfl
    exact ⟨h1, h2, h3, h4.trans (FS.Write_mkdirAllErr fs c).1,
      h5.trans (FS.Write_mkdirAllErr fs c).2⟩

theorem extractLoop_oracles : ∀ (n : Nat) (s : Scanner) (fs : FS),
    (extractLoop n s fs).2.mkdirAllErr = fs.mkdirAllErr ∧
    (extractLoop n s fs).2.createErr = fs.createErr := by
  intro n
  induction n with
  | zero => intro s fs; exact ⟨rfl, rfl⟩
  | succ n ih =>
    intro s fs
    cases hr : s.rest with
    | nil => simp [extractLoop, Scanner.Scan, hr]
    | cons l ls =>
      simp only [extractLoop, Scanner.Scan, hr]
      obtain ⟨h4, h5⟩ := ih { s with rest := ls, text := l } (fs.Write l)
      exact ⟨h4.trans (FS.Write_mkdirAllErr fs l).1, h5.trans (FS.Write_mkdirAllErr fs l).2⟩

theorem skipFile_consumesContent {σ : Type} :
    ConsumesContent (VimballArchive.skipFile : VimballExtractFunc σ) := by
  intro name content tail s st hs he _
  obtain ⟨s1, h, h1, _, h3⟩ := skipFile_content name content tail s st hs he
  rw [h]
  exact ⟨h1, h3⟩

theorem extractFile_consumesContent : ConsumesContent VimballArchive.extractFile := by
  intro name content tail s fs hs he hok
  unfold VimballArchive.extractFile at hok ⊢
  simp only [FS.MkdirAll, FS.Create] at hok ⊢
  cases hm : fs.mkdirAllErr (Dir name) with
  | some e => simp [hm] at hok
  | none =>
    simp only [hm] at hok ⊢
    cases hcr : fs.createErr name with
    | some e => simp [hcr] at hok
    | none =>
      simp only [hcr, Int.toNat_ofNat]
      obtain ⟨h1, _, h3, _, _⟩ := extractLoop_content content tail s
        { dirs := fs.dirs ++ [Dir name],
          files := (name, "") :: fs.files.filter (fun f => f.1 ≠ name),
          mkdirAllErr := fs.mkdirAllErr, createErr := fs.createErr } hs
      exact ⟨h1, h3.trans he⟩

theorem extractFile_healthy (name : String) (n : Int) (s : Scanner) (fs : FS)
    (h : fs.Healthy) : (VimballArchive.extractFile name n s fs).2.2.Healthy := by
  unfold VimballArchive.extractFile
  simp only [FS.MkdirAll, FS.Create, (h (Dir name)).1, (h name).2]
  intro p
  obtain ⟨h4, h5⟩ := extractLoop_oracles n.toNat s
    { dirs := fs.dirs ++ [Dir name],
      files := (name, "") :: fs.files.filter (fun f => f.1 ≠ name),
      mkdirAllErr := fs.mkdirAllErr, createErr := fs.createErr }
  simp only [h4, h5]
  exact h p

theorem extractFile_ok (name : String) (content tail : List String) (s : Scanner) (fs : FS)
    (h : fs.Healthy) (hs : s.rest = content ++ tail) (he : s.err = none) :
    (VimballArchive.extractFile name (content.length : Int) s fs).1 = none := by
  have hk : ∀ fs2 : FS, (extractLoop content.length s fs2).1.err = none :=
    fun fs2 => (extractLoop_content content tail s fs2 hs).2.2.1.trans he
  unfold VimballArchive.extractFile
  simp only [FS.MkdirAll, FS.Create, (h (Dir name)).1, (h name).2, Int.toNat_ofNat]
  simp [hk]

/-- Recording the invocations of the callback does not change what the record
loop returns. -/
theorem recordLoop_traced {σ : Type} (extract : VimballExtractFunc σ) (folder : String) :
    ∀ (fuel : Nat) (s : Scanner) (acc : List String) (st : σ) (log : List String),
      (recordLoop (traced extract) folder fuel s acc (st, log)).map (fun x => (x.1, x.2.1))
        = recordLoop extract folder fuel s acc st := by
  intro fuel
  induction fuel with
  | zero => intro s acc st log; rfl
  | succ f ih =>
    intro s acc st log
    simp only [recordLoop]
    rcases s.Scan with ⟨b1, s1⟩
    cases b1
    · rfl
    · simp only []
      rcases s1.Scan with ⟨b2, s2⟩
      cases b2
      · rfl
      · simp only []
        cases Atoi s2.text with
        | error e => rfl
        | ok n =>
          simp only []
          by_cases hn : n < 0
          · simp [hn]
          · simp only [hn, if_false, traced]
            rcases extract (Join [folder, Clean (TrimSpace (firstField s1.text))]) n s2 st
              with ⟨oerr, s3, st1⟩
            cases oerr
            · exact ih _ _ _ _
            · rfl

theorem handle_traced {σ : Type} (extract : VimballExtractFunc σ) (folder : String)
    (r : LineStream) (st : σ) (log : List String) :
    (VimballArchive.handle folder r (traced extract) (st, log)).map (fun x => (x.1, x.2.1))
      = VimballArchive.handle folder r extract st := by
  simp only [VimballArchive.handle]
  cases preambleLoop (r.lines.length + 1) (NewScanner r) false false with
  | none => rfl
  | some p =>
    rcases p with ⟨s1, u, f⟩
    simp only []
    by_cases h1 : s1.err ≠ none
    · simp [h1]
    · simp only [h1, if_false]
      by_cases h2 : (!u && !f) = true
      · simp [h2]
      · simp only [h2, if_false]
        exact recordLoop_traced extract folder _ _ _ _ _

/-- The record loop on well-formed records followed by a record whose count
line does not parse or is negative: the result is an error and a `nil` list;
the callback has been invoked for a prefix of the records before the bad one,
and for all of them with the count error as the result unless it failed. -/
theorem recordLoop_bad_count {σ : Type} (extract : VimballExtractFunc σ) (Inv : σ → Prop)
    (hc : ConsumesContent extract)
    (hI : ∀ name n s st, Inv st → Inv (extract name n s st).2.2)
    (folder nameLine countLine : String) (rest : List String) (cerr : GoError)
    (hE : ∀ e, Atoi countLine = .error e →
      cerr = .parseLineNumber (Clean (TrimSpace (firstField nameLine))) e)
    (hN : ∀ n, Atoi countLine = .ok n →
      n < 0 ∧ cerr = .negativeLineNumber (Clean (TrimSpace (firstField nameLine))) n)
    (recs : List VimballRecord) :
    ∀ (fuel : Nat) (s : Scanner) (acc : List String) (st : σ) (log : List String),
      s.rest = recs.flatMap VimballRecord.lines ++ nameLine :: countLine :: rest →
      s.err = none → (∀ rec ∈ recs, rec.WellFormed) → recs.length < fuel → Inv st →
      ∃ err st1 k, k ≤ recs.length ∧
        recordLoop (traced extract) folder fuel s acc (st, log)
          = some ((none, some err),
              (st1, log ++ (recs.take k).map (fun rec => Join [folder, rec.name]))) ∧
        ((err = cerr ∧ k = recs.length) ∨
          ∃ name content tail s0 st0, s0.rest = content ++ tail ∧ s0.err = none ∧ Inv st0 ∧
            (extract name (content.length : Int) s0 st0).1 = some err) := by
  induction recs with
  | nil =>
    intro fuel s acc st log hs herr _ hf _
    obtain ⟨f1, rfl⟩ : ∃ f1, fuel = f1 + 1 := ⟨fuel - 1, by simp at hf; omega⟩
    simp only [List.flatMap_nil, List.nil_append] at hs
    refine ⟨cerr, st, 0, Nat.le_refl _, ?_, Or.inl ⟨rfl, rfl⟩⟩
    simp only [recordLoop, Scanner.Scan_cons s _ _ hs]
    simp only [Scanner.Scan]
    cases ha : Atoi countLine with
    | error e => simp [hE e ha]
    | ok n => simp [(hN n ha).1, (hN n ha).2]
  | cons rec recs ih =>
    intro fuel s acc st log hs herr hwf hf hinv
    obtain ⟨f1, rfl⟩ : ∃ f1, fuel = f1 + 1 := ⟨fuel - 1, by simp at hf; omega⟩
    have hrec : rec.WellFormed := hwf rec (List.mem_cons_self _ _)
    have hrest : ∀ r ∈ recs, r.WellFormed := fun r hr => hwf r (List.mem_cons_of_mem _ hr)
    simp only [List.flatMap_cons, VimballRecord.lines, List.cons_append, List.append_assoc] at hs
    unfold VimballRecord.WellFormed at hrec
    have hneg : ¬ ((rec.content.length : Int) < 0) := by omega
    simp only [recordLoop, Scanner.Scan_cons s _ _ hs]
    simp only [Scanner.Scan, hrec, hneg, if_false, traced]
    rw [show Clean (TrimSpace (firstField rec.nameLine)) = rec.name from rfl]
    have hcc := hc (Join [folder, rec.name]) rec.content
      (recs.flatMap VimballRecord.lines ++ nameLine :: countLine :: rest)
      { s with rest := rec.content ++ (recs.flatMap VimballRecord.lines ++
          nameLine :: countLine :: rest), text := rec.countLine } st rfl herr
    have hii := hI (Join [folder, rec.name]) (rec.content.length : Int)
      { s with rest := rec.content ++ (recs.flatMap VimballRecord.lines ++
          nameLine :: countLine :: rest), text := rec.countLine } st hinv
    rcases hx : extract (Join [folder, rec.name]) (rec.content.length : Int)
      { s with rest := rec.content ++ (recs.flatMap VimballRecord.lines ++
          nameLine :: countLine :: rest), text := rec.countLine } st with ⟨oerr, s3, st3⟩
    rw [hx] at hcc hii
    cases oerr with
    | some err =>
      refine ⟨err, st3, 1, by simp, ?_, Or.inr ⟨Join [folder, rec.name], rec.content,
        recs.flatMap VimballRecord.lines ++ nameLine :: countLine :: rest,
        { s with rest := rec.content ++ (recs.flatMap VimballRecord.lines ++
          nameLine :: countLine :: rest), text := rec.countLine }, st, rfl, herr, hinv, ?_⟩⟩
      · simp
      · rw [hx]
    | none =>
      obtain ⟨h3rest, h3err⟩ := hcc rfl
      obtain ⟨err, st1, k, hk, hres, hor⟩ :=
        ih f1 s3 (acc ++ [rec.name]) st3 (log ++ [Join [folder, rec.name]]) h3rest h3err hrest
          (by simp at hf; omega) hii
      refine ⟨err, st1, k + 1, by simp; omega, ?_, ?_⟩
      · simp only []
        rw [hres]
        simp
      · rcases hor with ⟨h1, h2⟩ | h
        · exact Or.inl ⟨h1, by simp [h2]⟩
        · exact Or.inr h

theorem handle_traced_bad_count {σ : Type} (extract : VimballExtractFunc σ) (Inv : σ → Prop)
    (hc : ConsumesContent extract)
    (hI : ∀ name n s st, Inv st → Inv (extract name n s st).2.2)
    (pre : List String) (recs : List VimballRecord)
    (folder nameLine countLine : String) (rest : List String) (cerr : GoError)
    (hE : ∀ e, Atoi countLine = .error e →
      cerr = .parseLineNumber (Clean (TrimSpace (firstField nameLine))) e)
    (hN : ∀ n, Atoi countLine = .ok n →
      n < 0 ∧ cerr = .negativeLineNumber (Clean (TrimSpace (firstField nameLine))) n)
    (hpre : "UseVimball" ∉ pre) (hwf : ∀ rec ∈ recs, rec.WellFormed) (st : σ) (hst : Inv st) :
    ∃ err st1 k, k ≤ recs.length ∧
      VimballArchive.handle folder (vimballInput pre recs (nameLine :: countLine :: rest))
          (traced extract) (st, [])
        = some ((none, some err),
            (st1, (recs.take k).map (fun rec => Join [folder, rec.name]))) ∧
      ((err = cerr ∧ k = recs.length) ∨
        ∃ name content tail s0 st0, s0.rest = content ++ tail ∧ s0.err = none ∧ Inv st0 ∧
          (extract name (content.length : Int) s0 st0).1 = some err) := by
  have hlen : (vimballInput pre recs (nameLine :: countLine :: rest)).lines.length
      = pre.length + 2 + ((recs.flatMap VimballRecord.lines).length + (rest.length + 2)) := by
    simp [vimballInput]; omega
  have hrl := flatMap_lines_length recs
  simp only [VimballArchive.handle]
  rw [preambleLoop_useVimball pre "finish"
    (recs.flatMap VimballRecord.lines ++ nameLine :: countLine :: rest) hpre _ _
    (by simp [NewScanner, vimballInput]) (by omega)]
  simp only [NewScanner, ne_eq, not_true_eq_false, if_false, Bool.not_true, Bool.false_and,
    Bool.false_eq_true]
  obtain ⟨err, st1, k, hk, hres, hor⟩ :=
    recordLoop_bad_count extract Inv hc hI folder nameLine countLine rest cerr hE hN recs
      ((vimballInput pre recs (nameLine :: countLine :: rest)).lines.length + 1)
      { rest := recs.flatMap VimballRecord.lines ++ nameLine :: countLine :: rest,
        fail := (vimballInput pre recs (nameLine :: countLine :: rest)).fail,
        text := "finish", err := none }
      [] st [] rfl rfl hwf (by omega) hst
  exact ⟨err, st1, k, hk, by simpa using hres, hor⟩

/-- C8: for every input with preamble lines without `UseVimball`, then
`UseVimball` and `finish`, then well-formed records, then a record whose count
line `strconv.Atoi` does not parse or parses to a negative number, then any
lines: the call returns a non-nil error and a `nil` entry list, and the extract
callback is invoked only for records before the bad one. For `Entries` (callback
`skipFile`) the error is the parse error or the negative line-number error
naming the record, after one invocation for each earlier record. For `Extract`
(callback `extractFile`) an error is returned on every filesystem, after
invocations for a prefix of the earlier records; it is the count error, after
one invocation for each earlier record, when no filesystem call fails. -/
theorem VimballArchive.handle_bad_count (pre : List String) (recs : List VimballRecord)
    (nameLine countLine : String) (rest : List String) (folder : String) (skipDir : Int)
    (hpre : "UseVimball" ∉ pre) (hwf : ∀ rec ∈ recs, rec.WellFormed)
    (hbad : (∃ e, Atoi countLine = .error e) ∨ (∃ n, Atoi countLine = .ok n ∧ n < 0)) :
    ∃ cerr : GoError,
      (∀ e, Atoi countLine = .error e →
        cerr = .parseLineNumber (Clean (TrimSpace (firstField nameLine))) e) ∧
      (∀ n, Atoi countLine = .ok n →
        cerr = .negativeLineNumber (Clean (TrimSpace (firstField nameLine))) n) ∧
      VimballArchive.Entries (vimballInput pre recs (nameLine :: countLine :: rest)) skipDir
        = some (none, some cerr) ∧
      VimballArchive.handle folder (vimballInput pre recs (nameLine :: countLine :: rest))
          (traced VimballArchive.skipFile) ((), [])
        = some ((none, some cerr), ((), recs.map (fun rec =>
            Join [folder, Clean (TrimSpace (firstField rec.nameLine))]))) ∧
      (∀ fs : FS, ∃ err fs1 k, k ≤ recs.length ∧
        VimballArchive.handle folder (vimballInput pre recs (nameLine :: countLine :: rest))
            (traced VimballArchive.extractFile) (fs, [])
          = some ((none, some err), (fs1, (recs.take k).map (fun rec =>
              Join [folder, Clean (TrimSpace (firstField rec.nameLine))]))) ∧
        VimballArchive.Extract folder (vimballInput pre recs (nameLine :: countLine :: rest))
            skipDir fs = some (some err, fs1)) ∧
      (∀ fs : FS, fs.Healthy → ∃ fs1,
        VimballArchive.handle folder (vimballInput pre recs (nameLine :: countLine :: rest))
            (traced VimballArchive.extractFile) (fs, [])
          = some ((none, some cerr), (fs1, recs.map (fun rec =>
              Join [folder, Clean (TrimSpace (firstField rec.nameLine))]))) ∧
        VimballArchive.Extract folder (vimballInput pre recs (nameLine :: countLine :: rest))
            skipDir fs = some (some cerr, fs1)) := by
  -- the count error of the bad record
  obtain ⟨cerr, hE, hN⟩ : ∃ cerr : GoError,
      (∀ e, Atoi countLine = .error e →
        cerr = .parseLineNumber (Clean (TrimSpace (firstField nameLine))) e) ∧
      (∀ n, Atoi countLine = .ok n →
        n < 0 ∧ cerr = .negativeLineNumber (Clean (TrimSpace (firstField nameLine))) n) := by
    rcases hbad with ⟨e, he⟩ | ⟨n, hn, hneg⟩
    · refine ⟨.parseLineNumber (Clean (TrimSpace (firstField nameLine))) e, ?_, ?_⟩
      · intro e1 he1
        rw [he] at he1
        cases he1
        rfl
      · intro n hn
        rw [he] at hn
        cases hn
    · refine ⟨.negativeLineNumber (Clean (TrimSpace (firstField nameLine))) n, ?_, ?_⟩
      · intro e he
        rw [hn] at he
        cases he
      · intro n1 hn1
        rw [hn] at hn1
        cases hn1
        exact ⟨hneg, rfl⟩
  have extractOf : ∀ (fs fs1 : FS) (err : GoError) (log : List String),
      VimballArchive.handle folder (vimballInput pre recs (nameLine :: countLine :: rest))
          (traced VimballArchive.extractFile) (fs, []) = some ((none, some err), (fs1, log)) →
      VimballArchive.Extract folder (vimballInput pre recs (nameLine :: countLine :: rest))
          skipDir fs = some (some err, fs1) := by
    intro fs fs1 err log h
    have ht := handle_traced VimballArchive.extractFile folder
      (vimballInput pre recs (nameLine :: countLine :: rest)) fs []
    rw [h] at ht
    simp only [VimballArchive.Extract, ← ht]
    rfl
  refine ⟨cerr, hE, fun n hn => (hN n hn).2, ?_, ?_, ?_, ?_⟩
  · obtain ⟨err, st1, k, _, hres, hor⟩ :=
      handle_traced_bad_count (VimballArchive.skipFile : VimballExtractFunc Unit)
        (fun _ => True) skipFile_consumesContent (fun _ _ _ _ _ => trivial)
        pre recs "" nameLine countLine rest cerr hE hN hpre hwf () trivial
    have herr : err = cerr := by
      rcases hor with ⟨h1, _⟩ | ⟨name, content, tail, s0, st0, hs0, he0, _, hf⟩
      · exact h1
      · obtain ⟨s1, hsk, _⟩ := skipFile_content name content tail s0 st0 hs0 he0
        rw [hsk] at hf
        cases hf
    have ht := handle_traced (VimballArchive.skipFile : VimballExtractFunc Unit) ""
      (vimballInput pre recs (nameLine :: countLine :: rest)) () []
    rw [hres] at ht
    simp only [VimballArchive.Entries, ← ht, herr]
    rfl
  · obtain ⟨err, st1, k, _, hres, hor⟩ :=
      handle_traced_bad_count (VimballArchive.skipFile : VimballExtractFunc Unit)
        (fun _ => True) skipFile_consumesContent (fun _ _ _ _ _ => trivial)
        pre recs folder nameLine countLine rest cerr hE hN hpre hwf () trivial
    rcases hor with ⟨h1, h2⟩ | ⟨name, content, tail, s0, st0, hs0, he0, _, hf⟩
    · rw [hres, h1, h2, List.take_length]
      rfl
    · obtain ⟨s1, hsk, _⟩ := skipFile_content name content tail s0 st0 hs0 he0
      rw [hsk] at hf
      cases hf
  · intro fs
    obtain ⟨err, fs1, k, hk, hres, _⟩ :=
      handle_traced_bad_count VimballArchive.extractFile
        (fun _ => True) extractFile_consumesContent (fun _ _ _ _ _ => trivial)
        pre recs folder nameLine countLine rest cerr hE hN hpre hwf fs trivial
    exact ⟨err, fs1, k, hk, hres, extractOf fs fs1 err _ hres⟩
  · intro fs hfs
    obtain ⟨err, fs1, k, _, hres, hor⟩ :=
      handle_traced_bad_count VimballArchive.extractFile
        FS.Healthy extractFile_consumesContent extractFile_healthy
        pre recs folder nameLine countLine rest cerr hE hN hpre hwf fs hfs
    rcases hor with ⟨h1, h2⟩ | ⟨name, content, tail, s0, st0, hs0, he0, hh, hf⟩
    · rw [h1, h2, List.take_length] at hres
      exact ⟨fs1, hres, extractOf fs fs1 cerr _ hres⟩
    · rw [extractFile_ok name content tail s0 st0 hh hs0 he0] at hf
      cases hf

/-- C7 (amended) at the input with the record `docs/foo.txt` / `2` / two
content lines. -/
theorem VimballArchive.Entries_wellFormed_witness :
    VimballArchive.Entries (vimballInput samplePreamble [fooRecord] []) 1
      = some (some ([fooRecord].map
          (fun rec => Clean (TrimSpace (firstField rec.nameLine)))), none) :=
  VimballArchive.Entries_wellFormed samplePreamble [fooRecord] 1 (by decide) (by decide)

/-- C7, counterexample: the preamble is the single line `UseVimball`; it is
followed by `UseVimball`, `finish` and the well-formed record `a.txt` / `0`.
`Entries` takes `finish` for a name line and `a.txt` for its count line and
returns a parse error instead of the name `a.txt`. -/
theorem VimballArchive.Entries_useVimball_in_preamble :
    (vimballInput ["UseVimball"] [⟨"a.txt", "0", []⟩] []).lines
      = ["UseVimball", "UseVimball", "finish", "a.txt", "0"] ∧
    (⟨"a.txt", "0", []⟩ : VimballRecord).WellFormed ∧
    VimballArchive.Entries (vimballInput ["UseVimball"] [⟨"a.txt", "0", []⟩] []) 0
      = some (none, some (.parseLineNumber "finish" .notANumber)) := by
  decide

/-- C8 at the input with the record `docs/foo.txt`, then the record
`doc/a.txt` with the count line `-1`, extracted below `out`. -/
theorem VimballArchive.handle_bad_count_witness :
    ∃ cerr : GoError,
      (∀ e, Atoi "-1" = .error e →
        cerr = .parseLineNumber (Clean (TrimSpace (firstField "doc/a.txt"))) e) ∧
      (∀ n, Atoi "-1" = .ok n →
        cerr = .negativeLineNumber (Clean (TrimSpace (firstField "doc/a.txt"))) n) ∧
      VimballArchive.Entries (vimballInput samplePreamble [fooRecord] ("doc/a.txt" :: "-1" :: ["x"])) 0
        = some (none, some cerr) ∧
      VimballArchive.handle "out" (vimballInput samplePreamble [fooRecord] ("doc/a.txt" :: "-1" :: ["x"]))
          (traced VimballArchive.skipFile) ((), [])
        = some ((none, some cerr), ((), [fooRecord].map (fun rec =>
            Join ["out", Clean (TrimSpace (firstField rec.nameLine))]))) ∧
      (∀ fs : FS, ∃ err fs1 k, k ≤ [fooRecord].length ∧
        VimballArchive.handle "out" (vimballInput samplePreamble [fooRecord] ("doc/a.txt" :: "-1" :: ["x"]))
            (traced VimballArchive.extractFile) (fs, [])
          = some ((none, some err), (fs1, ([fooRecord].take k).map (fun rec =>
              Join ["out", Clean (TrimSpace (firstField rec.nameLine))]))) ∧
        VimballArchive.Extract "out" (vimballInput samplePreamble [fooRecord] ("doc/a.txt" :: "-1" :: ["x"]))
            0 fs = some (some err, fs1)) ∧
      (∀ fs : FS, fs.Healthy → ∃ fs1,
        VimballArchive.handle "out" (vimballInput samplePreamble [fooRecord] ("doc/a.txt" :: "-1" :: ["x"]))
            (traced VimballArchive.extractFile) (fs, [])
          = some ((none, some cerr), (fs1, [fooRecord].map (fun rec =>
              Join ["out", Clean (TrimSpace (firstField rec.nameLine))]))) ∧
        VimballArchive.Extract "out" (vimballInput samplePreamble [fooRecord] ("doc/a.txt" :: "-1" :: ["x"]))
            0 fs = some (some cerr, fs1)) :=
  VimballArchive.handle_bad_count samplePreamble [fooRecord] "doc/a.txt" "-1" ["x"] "out" 0
    (by decide) (by decide) (Or.inr ⟨-1, by decide, by decide⟩)

/-- The preamble loop on lines without `UseVimball`: it scans to the end of
the stream and sets no flag. -/
theorem preambleLoop_without_useVimball (lines : List String) (hpre : "UseVimball" ∉ lines) :
    ∀ (fuel : Nat) (s : Scanner), s.rest = lines → lines.length < fuel →
      preambleLoop fuel s false false
        = some ({ s with rest := [], text := "", err := s.fail }, false, false) := by
  induction lines with
  | nil =>
    intro fuel s hs hf
    obtain ⟨f1, rfl⟩ : ∃ f1, fuel = f1 + 1 := ⟨fuel - 1, by simp at hf; omega⟩
    simp [preambleLoop, Scanner.Scan, hs]
  | cons p ps ih =>
    intro fuel s hs hf
    obtain ⟨f1, rfl⟩ : ∃ f1, fuel = f1 + 1 := ⟨fuel - 1, by simp at hf; omega⟩
    have hp : p ≠ "UseVimball" := fun h => hpre (h ▸ List.mem_cons_self _ _)
    have hps : "UseVimball" ∉ ps := fun h => hpre (List.mem_cons_of_mem _ h)
    simp only [preambleLoop, Scanner.Scan_cons s _ _ hs]
    simp only [Bool.not_false, Bool.and_self, if_true, Bool.true_and, hp, decide_False,
      Bool.false_and, Bool.false_eq_true, if_false]
    rw [ih hps f1 _ rfl (by simp at hf; omega)]

/-- An input without a line `UseVimball` that ends cleanly is refused with the
strange-preamble error, whatever the callback. -/
theorem VimballArchive.handle_without_useVimball {σ : Type} (folder : String)
    (lines : List String) (extract : VimballExtractFunc σ) (st : σ)
    (hpre : "UseVimball" ∉ lines) :
    VimballArchive.handle folder ⟨lines, none⟩ extract st
      = some ((none, some .strangePreamble), st) := by
  simp only [VimballArchive.handle]
  rw [preambleLoop_without_useVimball lines hpre _ _ rfl (by omega)]
  simp [NewScanner]

/-- C2: the code at inputs that have `UseVimball` and no `finish`. On the
single line `UseVimball`, `Entries` returns an empty entry list and no error.
On `UseVimball`, a comment line and the record `plugin/a.vim` / `1` / one
content line, the line after `UseVimball` is dropped unread, the record is
scanned and `Entries` returns its name with no error. -/
theorem VimballArchive.handle_useVimball_without_finish :
    VimballArchive.Entries ⟨["UseVimball"], none⟩ 0 = some (some [], none) ∧
    "finish" ∉ ["UseVimball", "\" no sentinel", "plugin/a.vim", "1", "let a = 1"] ∧
    VimballArchive.Entries
        ⟨["UseVimball", "\" no sentinel", "plugin/a.vim", "1", "let a = 1"], none⟩ 0
      = some (some ["plugin/a.vim"], none) := by
  decide

/-- C3: the code at the input `UseVimball`, `finish`, `docs/foo.txt`, `2`,
`line one`, `line two`: `Extract` returns no error and leaves one file,
`docs/foo.txt`, whose content is the two lines run together without a line
break; split into lines it is one line, not the two content lines. -/
theorem VimballArchive.Extract_joins_lines :
    (vimballInput [] [⟨"docs/foo.txt", "2", ["line one", "line two"]⟩] []).lines
      = ["UseVimball", "finish", "docs/foo.txt", "2", "line one", "line two"] ∧
    (VimballArchive.Extract ""
        (vimballInput [] [⟨"docs/foo.txt", "2", ["line one", "line two"]⟩] []) 0 FS.empty).map
        (fun res => (res.1, res.2.files))
      = some (none, [("docs/foo.txt", "line oneline two")]) ∧
    splitLines "line oneline two" = ["line oneline two"] ∧
    splitLines "line oneline two" ≠ ["line one", "line two"] := by
  decide

/-- C4: the code at the input `UseVimball`, `finish`, `a.txt`, `3`, `x`, where
the record declares three content lines and the stream ends after one:
`Entries` returns the entry list `["a.txt"]` and no error, and `Extract`
returns no error and leaves the file `a.txt` with the one line. -/
theorem VimballArchive.handle_truncated_record :
    (vimballInput [] [] ["a.txt", "3", "x"]).lines = ["UseVimball", "finish", "a.txt", "3", "x"] ∧
    (vimballInput [] [] ["a.txt", "3", "x"]).fail = none ∧
    VimballArchive.Entries (vimballInput [] [] ["a.txt", "3", "x"]) 0
      = some (some ["a.txt"], none) ∧
    (VimballArchive.Extract "" (vimballInput [] [] ["a.txt", "3", "x"]) 0 FS.empty).map
        (fun res => (res.1, res.2.files))
      = some (none, [("a.txt", "x")]) := by
  decide

/-- The loop of `extractFile` over the content lines of a record appends them
to the open file one after the other, with nothing between them. -/
theorem extractLoop_files (content tail : List String) :
    ∀ (s : Scanner) (fs : FS) (name c0 : String) (others : List (String × String)),
      s.rest = content ++ tail → fs.files = (name, c0) :: others →
      (extractLoop content.length s fs).2.files
        = (name, c0 ++ concatLines content) :: others := by
  induction content with
  | nil =>
    intro s fs name c0 others _ hf
    simp [extractLoop, hf, concatLines]
  | cons c cs ih =>
    intro s fs name c0 others hs hf
    simp only [List.cons_append] at hs
    simp only [List.length_cons, extractLoop, Scanner.Scan_cons s _ _ hs]
    rw [ih { s with rest := cs ++ tail, text := c } (fs.Write c) name (c0 ++ c) others rfl
      (by simp [FS.Write, hf])]
    simp [concatLines, String.append_assoc]

/-- What `extractFile` leaves for a record whose content lines are all there,
on a filesystem where no call fails: no error, and the file of the record
holds the content lines run together, without line breaks. -/
theorem extractFile_writes_concatenation (name : String) (content tail : List String)
    (s : Scanner) (fs : FS) (h : fs.Healthy) (hs : s.rest = content ++ tail)
    (he : s.err = none) :
    (VimballArchive.extractFile name (content.length : Int) s fs).1 = none ∧
    (VimballArchive.extractFile name (content.length : Int) s fs).2.2.files.head?
      = some (name, concatLines content) := by
  refine ⟨extractFile_ok name content tail s fs h hs he, ?_⟩
  unfold VimballArchive.extractFile
  simp only [FS.MkdirAll, FS.Create, (h (Dir name)).1, (h name).2, Int.toNat_ofNat]
  rw [extractLoop_files content tail s _ name "" _ hs rfl]
  simp

/-! ## Theorems: http.go -/

theorem ioCopy_ok (w : Writer) (data : String) (readErr : Option String)
    (h : (ioCopy w data readErr).1 = none) :
    (ioCopy w data readErr).2.1.written = w.written ++ data ∧
    (ioCopy w data readErr).2.2 = data := by
  unfold ioCopy at h ⊢
  cases hf : w.failAfter with
  | none => simp
  | some p =>
    rcases p with ⟨k, e⟩
    simp only [hf] at h ⊢
    by_cases hk : k < data.length
    · simp [hk] at h
    · simp [hk]

/-- C9: for a response with status 200 whose body is copied to the sink
without a read or write error: with a non-empty `checkSha1` the call returns
`nil` if and only if `checkSha1` equals the hex-encoded SHA-1 digest of the
body; on mismatch the error text contains the computed digest and
`checkSha1`; with an empty `checkSha1` the call returns `nil`; and in all
these cases the sink has received exactly the body. -/
theorem httpGET_checksum (sha1Hex : String → String) (get : String → Except String Response)
    (w : Writer) (url checkSha1 : String) (resp : Response)
    (hget : get url = .ok resp) (h200 : resp.StatusCode = 200)
    (hcopy : (ioCopy w resp.body resp.bodyErr).1 = none) :
    (checkSha1 ≠ "" →
      ((httpGET sha1Hex get w url checkSha1).1 = none ↔ checkSha1 = sha1Hex resp.body)) ∧
    (checkSha1 ≠ "" → checkSha1 ≠ sha1Hex resp.body →
      ∃ text, (httpGET sha1Hex get w url checkSha1).1 = some (.message text) ∧
        (sha1Hex resp.body).data <:+: text.data ∧ checkSha1.data <:+: text.data) ∧
    (checkSha1 = "" → (httpGET sha1Hex get w url checkSha1).1 = none) ∧
    (httpGET sha1Hex get w url checkSha1).2.written = w.written ++ resp.body := by
  obtain ⟨hw, hr⟩ := ioCopy_ok w resp.body resp.bodyErr hcopy
  rcases hc : ioCopy w resp.body resp.bodyErr with ⟨oerr, w1, read⟩
  rw [hc] at hcopy hw hr
  simp only at hcopy hw hr
  subst hcopy hr
  have hrun : httpGET sha1Hex get w url checkSha1 =
      if checkSha1 ≠ "" ∧ checkSha1 ≠ sha1Hex (if checkSha1 ≠ "" then resp.body else "") then
        (some (.message ("sha1 does not match: got " ++
          sha1Hex (if checkSha1 ≠ "" then resp.body else "") ++ ", expected " ++ checkSha1)), w1)
      else (none, w1) := by
    simp only [httpGET, hget, h200, hc]
    simp
  refine ⟨?_, ?_, ?_, ?_⟩
  · intro hne
    rw [hrun]
    simp only [hne, ne_eq, not_false_eq_true, true_and, if_true]
    by_cases heq : checkSha1 = sha1Hex resp.body
    · simp [heq]
    · simp [heq]
  · intro hne hneq
    refine ⟨"sha1 does not match: got " ++ sha1Hex resp.body ++ ", expected " ++ checkSha1,
      ?_, ?_, ?_⟩
    · rw [hrun]
      simp [hne, hneq]
    · exact ⟨"sha1 does not match: got ".data, (", expected " ++ checkSha1).data, by
        simp [String.data_append]⟩
    · exact ⟨("sha1 does not match: got " ++ sha1Hex resp.body ++ ", expected ").data, [], by
        simp [String.data_append]⟩
  · intro he
    rw [hrun]
    simp [he]
  · rw [hrun]
    by_cases hcond : checkSha1 ≠ "" ∧
        checkSha1 ≠ sha1Hex (if checkSha1 ≠ "" then resp.body else "")
    · rw [if_pos hcond]; exact hw
    · rw [if_neg hcond]; exact hw

/-- C9 at a download of the body `abc` into an empty sink, with the SHA-1 of
`abc` as the expected checksum. -/
theorem httpGET_checksum_witness :
    ("a9993e364706816aba3e25717850c26c9cd0d89d" ≠ "" →
      ((httpGET sampleSha1Hex sampleGet ⟨"", none⟩ "http://example.org/p.zip"
          "a9993e364706816aba3e25717850c26c9cd0d89d").1 = none ↔
        "a9993e364706816aba3e25717850c26c9cd0d89d" = sampleSha1Hex "abc")) ∧
    ("a9993e364706816aba3e25717850c26c9cd0d89d" ≠ "" →
      "a9993e364706816aba3e25717850c26c9cd0d89d" ≠ sampleSha1Hex "abc" →
      ∃ text, (httpGET sampleSha1Hex sampleGet ⟨"", none⟩ "http://example.org/p.zip"
          "a9993e364706816aba3e25717850c26c9cd0d89d").1 = some (.message text) ∧
        (sampleSha1Hex "abc").data <:+: text.data ∧
        ("a9993e364706816aba3e25717850c26c9cd0d89d" : String).data <:+: text.data) ∧
    ("a9993e364706816aba3e25717850c26c9cd0d89d" = "" →
      (httpGET sampleSha1Hex sampleGet ⟨"", none⟩ "http://example.org/p.zip"
        "a9993e364706816aba3e25717850c26c9cd0d89d").1 = none) ∧
    (httpGET sampleSha1Hex sampleGet ⟨"", none⟩ "http://example.org/p.zip"
      "a9993e364706816aba3e25717850c26c9cd0d89d").2.written = "" ++ "abc" :=
  httpGET_checksum sampleSha1Hex sampleGet ⟨"", none⟩ "http://example.org/p.zip"
    "a9993e364706816aba3e25717850c26c9cd0d89d" ⟨200, "abc", none⟩ rfl rfl rfl

/-! ## Theorems: vopher.go -/

theorem updatePlugin_skip (world : World) (dir : String) (plugin : Plugin)
    (hex : world.statOk (Join [dir, plugin.name]) = true) :
    updatePlugin world dir false plugin = [] := by
  simp [updatePlugin, hex]

theorem updatePlugin_force (world : World) (statOk2 : String → Bool) (dir : String)
    (plugin : Plugin) :
    updatePlugin world dir true plugin
      = updatePlugin { world with statOk := statOk2 } dir true plugin := by
  simp [updatePlugin]

theorem updatePlugin_missing (world : World) (dir : String) (force : Bool) (plugin : Plugin)
    (hex : world.statOk (Join [dir, plugin.name]) = false) :
    updatePlugin world dir force plugin = updatePlugin world dir true plugin := by
  simp [updatePlugin, hex]

theorem flatMap_updatePlugin_filter (world : World) (dir : String) (plugins : List Plugin) :
    plugins.flatMap (updatePlugin world dir false)
      = (plugins.filter (fun p => !world.statOk (Join [dir, p.name]))).flatMap
          (updatePlugin world dir false) := by
  induction plugins with
  | nil => rfl
  | cons p ps ih =>
    cases hex : world.statOk (Join [dir, p.name])
    · simp only [List.flatMap_cons, List.filter_cons, hex, Bool.not_false, if_true]
      rw [ih]
    · simp only [List.flatMap_cons, List.filter_cons, hex, Bool.not_true, Bool.false_eq_true,
        if_false, updatePlugin_skip world dir p hex, List.nil_append]
      exact ih

/-- C10: for every plugin list, target directory and state of the outside
world: a plugin whose destination `Join(dir, plugin.name)` exists is skipped
when `force` is false, with no probe, no `ui.AddJob` and no `acquire` issued
for it, so that `update` does what it does on the list without the plugins
whose destination exists; and when `force` is true the existence of the
destination plays no part: the plugin is processed as it is, with or without
`force`, in a world where no destination exists, and `update` does the same
whatever `os.Stat` answers. -/
theorem update_force_policy (world : World) (statOk2 : String → Bool) (dir : String)
    (plugins : List Plugin) (plugin : Plugin) (force2 : Bool)
    (hex : world.statOk (Join [dir, plugin.name]) = true) :
    updatePlugin world dir false plugin = [] ∧
    update world plugins dir false
      = update world (plugins.filter (fun p => !world.statOk (Join [dir, p.name]))) dir false ∧
    updatePlugin world dir true plugin
      = updatePlugin { world with statOk := fun _ => false } dir force2 plugin ∧
    update world plugins dir true = update { world with statOk := statOk2 } plugins dir true := by
  refine ⟨updatePlugin_skip world dir plugin hex, ?_, ?_, ?_⟩
  · simp only [update]
    rw [flatMap_updatePlugin_filter]
  · rw [updatePlugin_missing { world with statOk := fun _ => false } dir force2 plugin rfl]
    exact updatePlugin_force world _ dir plugin
  · simp only [update]
    congr 2
    exact List.flatMap_congr (fun p _ => updatePlugin_force world statOk2 dir p)

/-- C10 at two plugins of which the first has its destination. -/
theorem update_force_policy_witness :
    updatePlugin sampleWorld "bundle" false
        { name := "vim-a", url := ⟨"github.com", "/x/vim-a", ""⟩, strip_dir := 1 } = [] ∧
    update sampleWorld samplePlugins "bundle" false
      = update sampleWorld
          (samplePlugins.filter (fun p => !sampleWorld.statOk (Join ["bundle", p.name])))
          "bundle" false ∧
    updatePlugin sampleWorld "bundle" true
        { name := "vim-a", url := ⟨"github.com", "/x/vim-a", ""⟩, strip_dir := 1 }
      = updatePlugin { sampleWorld with statOk := fun _ => false } "bundle" false
          { name := "vim-a", url := ⟨"github.com", "/x/vim-a", ""⟩, strip_dir := 1 } ∧
    update sampleWorld samplePlugins "bundle" true
      = update { sampleWorld with statOk := fun _ => true } samplePlugins "bundle" true :=
  update_force_policy sampleWorld (fun _ => true) "bundle" samplePlugins
    { name := "vim-a", url := ⟨"github.com", "/x/vim-a", ""⟩, strip_dir := 1 } false
    (by decide)

end Vopher
